import Mathlib

/-!
Shallow embedding of `nuklear-backend-glium` (`src/lib.rs`): a per-frame
translator from nuklear draw commands to glium draw calls.  Machine integers
are modelled as `Nat`/`Int` (with explicit two's-complement wrapping where the
source casts), `f32` clip coordinates and matrix entries as `ℚ`, and the
fallible `unwrap` calls of the dispatch loop as an explicit success flag.
-/

namespace NuklearGlium

/-- Two's-complement wrap into the `i32` range, modelling Rust `as i32`
casts and wrapping `i32` arithmetic. -/
def wrapI32 (n : ℤ) : ℤ := (n + 2 ^ 31) % 2 ^ 32 - 2 ^ 31

/-- `Drawer::add_texture`: the registry `tex : Vec<Texture2d>` is modelled as a
list; the handle is `self.tex.len() as i32 + 1` (a wrapping cast followed by an
`i32` addition) and the texture is pushed.  Returns `(handle, new registry)`. -/
def addTexture {T : Type} (tex : List T) (t : T) : ℤ × List T :=
  (wrapI32 (wrapI32 (tex.length : ℤ) + 1), tex ++ [t])

/-- A sequence of `add_texture` calls, returning the handles in call order
together with the final registry. -/
def registerSeq {T : Type} (tex : List T) : List T → List ℤ × List T
  | [] => ([], tex)
  | t :: ts =>
    let p := addTexture tex t
    let q := registerSeq p.2 ts
    (p.1 :: q.1, q.2)

/-- `Drawer::find_res`: `if id > 0 && id as usize <= self.tex.len()
{ Some(&self.tex[(id - 1) as usize]) } else { None }`. -/
def find_res {T : Type} (tex : List T) (id : ℤ) : Option T :=
  if h : 0 < id ∧ id.toNat ≤ tex.length then
    some (tex.get ⟨(id - 1).toNat, by omega⟩)
  else none

/-- A GPU scissor rectangle (`glium::Rect`), four `u32` fields. -/
structure Rect where
  left : ℕ
  bottom : ℕ
  width : ℕ
  height : ℕ
  deriving DecidableEq

/-- Rust `f32 as u32`: truncation toward zero, saturating at `0` and
`u32::MAX`.  On a rational input this is the floor clamped into
`[0, 2^32 - 1]`. -/
def f32ToU32 (q : ℚ) : ℕ := min (⌊q⌋).toNat (2 ^ 32 - 1)

/-- The scissor computation of `Drawer::draw` for a clip rect `(x, y, w, h)`
on a frame of pixel height `hh`:
`left: (if x < 0 { 0 } else { x }) as u32`,
`bottom: (if y < 0 { 0 } else { hh - y - h }) as u32`,
`width: (if x < 0 { w + x } else { w }) as u32`,
`height: (if y < 0 { h + y } else { h }) as u32`. -/
def scissorRect (x y w h : ℚ) (hh : ℕ) : Rect :=
  { left := f32ToU32 (if x < 0 then 0 else x)
    bottom := f32ToU32 (if y < 0 then 0 else (hh : ℚ) - y - h)
    width := f32ToU32 (if x < 0 then w + x else w)
    height := f32ToU32 (if y < 0 then h + y else h) }

/-- The orthographic projection matrix literal of `Drawer::draw`, column-major
as the source writes it: columns `[2/ww, 0, 0, 0]`, `[0, -2/hh, 0, 0]`,
`[0, 0, -1, 0]`, `[-1, 1, 0, 1]`. -/
def ortho (ww hh : ℕ) : List (List ℚ) :=
  [[2 / (ww : ℚ), 0, 0, 0],
   [0, -2 / (hh : ℚ), 0, 0],
   [0, 0, -1, 0],
   [-1, 1, 0, 1]]

/-- Modelled from the spec's words, for comparison with `ortho`: the fixed
orthographic form with diagonal `(2/W, -2/H, -1, 1)` and translation column
`(-1, 1, 0, 1)`, all other entries zero (column-major; entry `i` of
column `j`). -/
def orthoSpecForm (ww hh : ℕ) : List (List ℚ) :=
  (List.range 4).map fun j =>
    (List.range 4).map fun i =>
      if i = j then [2 / (ww : ℚ), -2 / (hh : ℚ), -1, 1].getD i 0
      else if j = 3 then [(-1 : ℚ), 1, 0, 1].getD i 0
      else 0

/-- One nuklear draw command as seen by the dispatch loop: element count
(`u32`, number of indices), texture handle id (`i32`), and the clip rect
(`f32` fields, modelled as `ℚ`). -/
structure DrawCommand where
  elem_count : ℕ
  tex_id : ℤ
  clip_x : ℚ
  clip_y : ℚ
  clip_w : ℚ
  clip_h : ℚ
  deriving DecidableEq

/-- One issued `frame.draw` call: the index sub-range
`ebo.slice(idx_start..idx_end)`, the resolved texture, the scissor
rectangle, and the projection matrix uniform. -/
structure DrawCall (T : Type) where
  idx_start : ℕ
  idx_end : ℕ
  texture : T
  scissor : Rect
  proj : List (List ℚ)
  deriving DecidableEq

/-- The command loop of `Drawer::draw` over registry `tex` and a frame of
pixel dimensions `ww × hh`, starting from index cursor `idx_start`:
commands with `elem_count < 1` are skipped; otherwise
`find_res(id).unwrap()` panics on an unresolved handle (modelled by the
`false` flag, with the draw calls already issued kept), else one draw call
over `[idx_start, idx_start + elem_count)` is issued and the cursor advances
to `idx_end`.  Returns the issued draw calls in order and the success flag. -/
def dispatch {T : Type} (tex : List T) (ww hh : ℕ) :
    List DrawCommand → ℕ → List (DrawCall T) × Bool
  | [], _ => ([], true)
  | c :: cs, idx_start =>
    if c.elem_count < 1 then dispatch tex ww hh cs idx_start
    else
      match find_res tex c.tex_id with
      | none => ([], false)
      | some ptr =>
        let idx_end := idx_start + c.elem_count
        let rest := dispatch tex ww hh cs idx_end
        ({ idx_start := idx_start, idx_end := idx_end, texture := ptr,
           scissor := scissorRect c.clip_x c.clip_y c.clip_w c.clip_h hh,
           proj := ortho ww hh } :: rest.1, rest.2)

/-- Total element count `E = Σ ei` of a command list. -/
def sumElems (cs : List DrawCommand) : ℕ := (cs.map (fun c => c.elem_count)).sum

/-- `chain s e calls`: the calls' index ranges are nonempty, start exactly at
`s`, follow each other contiguously in list order, and end exactly at `e`. -/
def chain {T : Type} : ℕ → ℕ → List (DrawCall T) → Prop
  | s, e, [] => s = e
  | s, e, call :: rest => call.idx_start = s ∧ s < call.idx_end ∧ chain call.idx_end e rest

/-- `size_of::<Vertex>()` in bytes: `pos: Vec2` (2 × f32, offset 0),
`tex: Vec2` (2 × f32, offset 8), `col: [u8; 4]` (offset 16) — 20 bytes,
matching the vertex-layout offsets `(0, 8, 16)` the source declares in
`DrawVertexLayoutElements`. -/
def vertexSize : ℕ := 20

/-- `size_of::<u16>()` in bytes. -/
def u16Size : ℕ := 2

/-- `Drawer::new`: `vbf: vec![Vertex::default(); vbo_size * size_of::<Vertex>()]`
— the number of `Vertex` records the constructed staging vertex buffer holds. -/
def vbfLen (vbo_size : ℕ) : ℕ := vbo_size * vertexSize

/-- `Drawer::new`: `ebf: vec![0u16; ebo_size * size_of::<u16>()]`
— the number of `u16` records the constructed staging index buffer holds. -/
def ebfLen (ebo_size : ℕ) : ℕ := ebo_size * u16Size

/-- `Drawer::draw`: `slice::from_raw_parts_mut(vbf as *mut u8, vbf.capacity())`
— the byte length of the vertex byte window handed to the converter
(`vec![x; n]` allocates with `capacity() == len()`), in bytes. -/
def rvbufBytes (vbo_size : ℕ) : ℕ := vbfLen vbo_size

/-- `Drawer::draw`: `slice::from_raw_parts_mut(ebf as *mut u8, ebf.capacity())`
— the byte length of the index byte window handed to the converter. -/
def rebufBytes (ebo_size : ℕ) : ℕ := ebfLen ebo_size

lemma wrapI32_eq_self (n : ℤ) (h1 : -2 ^ 31 ≤ n) (h2 : n < 2 ^ 31) :
    wrapI32 n = n := by
  unfold wrapI32
  omega

lemma addTexture_fst {T : Type} (tex : List T) (t : T)
    (h : (tex.length : ℤ) + 1 < 2 ^ 31) :
    (addTexture tex t).1 = (tex.length : ℤ) + 1 := by
  have h0 : (0 : ℤ) ≤ (tex.length : ℤ) := Int.natCast_nonneg _
  unfold addTexture
  rw [wrapI32_eq_self ((tex.length : ℤ)) (by omega) (by omega),
    wrapI32_eq_self _ (by omega) (by omega)]

lemma registerSeq_spec {T : Type} :
    ∀ (imgs tex : List T), ((tex.length + imgs.length : ℕ) : ℤ) < 2 ^ 31 →
      (registerSeq tex imgs).1
          = (List.range imgs.length).map (fun k => ((tex.length + k : ℕ) : ℤ) + 1)
        ∧ (registerSeq tex imgs).2.length = tex.length + imgs.length
  | [], tex, _ => by simp [registerSeq]
  | t :: ts, tex, h => by
    simp only [List.length_cons] at h
    push_cast at h
    have hfst : (addTexture tex t).1 = (tex.length : ℤ) + 1 :=
      addTexture_fst tex t (by omega)
    have hsnd : (addTexture tex t).2 = tex ++ [t] := rfl
    have ih := registerSeq_spec ts (tex ++ [t])
      (by simp only [List.length_append, List.length_singleton]; push_cast; omega)
    simp only [List.length_append, List.length_singleton] at ih
    refine ⟨?_, ?_⟩
    · show (addTexture tex t).1 :: (registerSeq (addTexture tex t).2 ts).1 = _
      rw [hfst, hsnd, ih.1]
      simp only [List.length_cons, List.range_succ_eq_map, List.map_cons, List.map_map]
      refine List.cons_eq_cons.mpr ⟨?_, ?_⟩
      · push_cast
        ring
      · refine List.map_congr_left ?_
        intro k _
        simp only [Function.comp_apply]
        push_cast
        ring
    · show (registerSeq (addTexture tex t).2 ts).2.length = _
      rw [hsnd, ih.2]
      simp only [List.length_cons]
      omega

lemma f32ToU32_natCast (n : ℕ) (h : n < 2 ^ 32) : f32ToU32 (n : ℚ) = n := by
  unfold f32ToU32
  rw [Int.floor_natCast]
  simp only [Int.toNat_natCast]
  omega

lemma f32ToU32_zero : f32ToU32 0 = 0 := by
  unfold f32ToU32
  norm_num

lemma ortho_eq_specForm (ww hh : ℕ) : ortho ww hh = orthoSpecForm ww hh := by
  simp [ortho, orthoSpecForm, List.range_succ]

lemma chain_le {T : Type} :
    ∀ (l : List (DrawCall T)) (s e : ℕ), chain s e l → s ≤ e
  | [], s, e, h => le_of_eq h
  | _ :: rest, s, e, h => le_trans (le_of_lt h.2.1) (chain_le rest _ e h.2.2)

lemma chain_bounds {T : Type} :
    ∀ (l : List (DrawCall T)) (s e : ℕ), chain s e l →
      ∀ call ∈ l, s ≤ call.idx_start ∧ call.idx_end ≤ e
  | [], _, _, _, _, hmem => absurd hmem (List.not_mem_nil _)
  | c :: rest, s, e, h, call, hmem => by
    rcases List.mem_cons.mp hmem with hc | hc
    · subst hc
      exact ⟨le_of_eq h.1.symm, chain_le rest _ e h.2.2⟩
    · have hb := chain_bounds rest c.idx_end e h.2.2 call hc
      exact ⟨le_trans (le_of_lt (h.1 ▸ h.2.1)) hb.1, hb.2⟩

lemma chain_pairwise {T : Type} :
    ∀ (l : List (DrawCall T)) (s e : ℕ), chain s e l →
      List.Pairwise (fun a b => a.idx_end ≤ b.idx_start) l
  | [], _, _, _ => List.Pairwise.nil
  | c :: rest, s, e, h => by
    refine List.Pairwise.cons ?_ (chain_pairwise rest c.idx_end e h.2.2)
    intro b hb
    exact (chain_bounds rest c.idx_end e h.2.2 b hb).1

lemma chain_cover {T : Type} :
    ∀ (l : List (DrawCall T)) (s e : ℕ), chain s e l →
      ∀ k, (∃ call ∈ l, call.idx_start ≤ k ∧ k < call.idx_end) ↔ (s ≤ k ∧ k < e)
  | [], s, e, h, k => by
    subst h
    simp
  | c :: rest, s, e, h, k => by
    obtain ⟨h1, h2, h3⟩ := h
    have ihc := chain_cover rest c.idx_end e h3 k
    have hce : c.idx_end ≤ e := chain_le rest _ e h3
    constructor
    · rintro ⟨call, hmem, hk1, hk2⟩
      rcases List.mem_cons.mp hmem with hc | hc
      · subst hc
        omega
      · have := ihc.mp ⟨call, hc, hk1, hk2⟩
        omega
    · rintro ⟨hk1, hk2⟩
      by_cases hk3 : k < c.idx_end
      · exact ⟨c, List.mem_cons_self _ _, by omega, hk3⟩
      · obtain ⟨call, hmem, hk⟩ := ihc.mpr ⟨by omega, hk2⟩
        exact ⟨call, List.mem_cons_of_mem _ hmem, hk⟩

lemma sumElems_nil : sumElems [] = 0 := rfl

lemma sumElems_cons (c : DrawCommand) (cs : List DrawCommand) :
    sumElems (c :: cs) = c.elem_count + sumElems cs := by
  simp [sumElems]

lemma dispatch_nil {T : Type} (tex : List T) (ww hh cur : ℕ) :
    dispatch tex ww hh [] cur = ([], true) := rfl

lemma dispatch_cons_zero {T : Type} (tex : List T) (ww hh : ℕ) (c : DrawCommand)
    (cs : List DrawCommand) (cur : ℕ) (hc : c.elem_count < 1) :
    dispatch tex ww hh (c :: cs) cur = dispatch tex ww hh cs cur := by
  simp [dispatch, hc]

lemma dispatch_cons_none {T : Type} (tex : List T) (ww hh : ℕ) (c : DrawCommand)
    (cs : List DrawCommand) (cur : ℕ) (hc : ¬ c.elem_count < 1)
    (hfind : find_res tex c.tex_id = none) :
    dispatch tex ww hh (c :: cs) cur = ([], false) := by
  simp [dispatch, hc, hfind]

lemma dispatch_cons_some {T : Type} (tex : List T) (ww hh : ℕ) (c : DrawCommand)
    (cs : List DrawCommand) (cur : ℕ) (ptr : T) (hc : ¬ c.elem_count < 1)
    (hfind : find_res tex c.tex_id = some ptr) :
    dispatch tex ww hh (c :: cs) cur =
      ({ idx_start := cur, idx_end := cur + c.elem_count, texture := ptr,
         scissor := scissorRect c.clip_x c.clip_y c.clip_w c.clip_h hh,
         proj := ortho ww hh } :: (dispatch tex ww hh cs (cur + c.elem_count)).1,
       (dispatch tex ww hh cs (cur + c.elem_count)).2) := by
  simp [dispatch, hc, hfind]

lemma dispatch_chain {T : Type} (tex : List T) (ww hh : ℕ) :
    ∀ (cs : List DrawCommand) (cur : ℕ), (dispatch tex ww hh cs cur).2 = true →
      chain cur (cur + sumElems cs) (dispatch tex ww hh cs cur).1
  | [], cur, _ => by
    rw [dispatch_nil, sumElems_nil, Nat.add_zero]
    exact rfl
  | c :: cs, cur, h => by
    by_cases hc : c.elem_count < 1
    · rw [dispatch_cons_zero tex ww hh c cs cur hc] at h ⊢
      have hz : c.elem_count = 0 := by omega
      have ih := dispatch_chain tex ww hh cs cur h
      rw [sumElems_cons, hz, Nat.zero_add]
      exact ih
    · cases hfind : find_res tex c.tex_id with
      | none =>
        rw [dispatch_cons_none tex ww hh c cs cur hc hfind] at h
        simp at h
      | some ptr =>
        rw [dispatch_cons_some tex ww hh c cs cur ptr hc hfind] at h ⊢
        have ih := dispatch_chain tex ww hh cs (cur + c.elem_count) h
        refine ⟨rfl, ?_, ?_⟩
        · show cur < cur + c.elem_count
          omega
        · rw [sumElems_cons, ← Nat.add_assoc]
          exact ih

lemma dispatch_lens {T : Type} (tex : List T) (ww hh : ℕ) :
    ∀ (cs : List DrawCommand) (cur : ℕ), (dispatch tex ww hh cs cur).2 = true →
      (dispatch tex ww hh cs cur).1.map (fun call => call.idx_end - call.idx_start)
        = (cs.filter fun c => 1 ≤ c.elem_count).map (fun c => c.elem_count)
  | [], cur, _ => by simp [dispatch_nil]
  | c :: cs, cur, h => by
    by_cases hc : c.elem_count < 1
    · rw [dispatch_cons_zero tex ww hh c cs cur hc] at h ⊢
      have ih := dispatch_lens tex ww hh cs cur h
      have hz : ¬ (1 ≤ c.elem_count) := by omega
      rw [List.filter_cons_of_neg (by simpa using hz)]
      exact ih
    · cases hfind : find_res tex c.tex_id with
      | none =>
        rw [dispatch_cons_none tex ww hh c cs cur hc hfind] at h
        simp at h
      | some ptr =>
        rw [dispatch_cons_some tex ww hh c cs cur ptr hc hfind] at h ⊢
        have ih := dispatch_lens tex ww hh cs (cur + c.elem_count) h
        rw [List.filter_cons_of_pos (by simpa using (by omega : 1 ≤ c.elem_count))]
        simp only [List.map_cons]
        rw [ih]
        congr 1
        omega

lemma dispatch_proj {T : Type} (tex : List T) (ww hh : ℕ) :
    ∀ (cs : List DrawCommand) (cur : ℕ) (call : DrawCall T),
      call ∈ (dispatch tex ww hh cs cur).1 → call.proj = ortho ww hh
  | [], cur, call, hmem => absurd hmem (by simp [dispatch_nil])
  | c :: cs, cur, call, hmem => by
    by_cases hc : c.elem_count < 1
    · rw [dispatch_cons_zero tex ww hh c cs cur hc] at hmem
      exact dispatch_proj tex ww hh cs cur call hmem
    · cases hfind : find_res tex c.tex_id with
      | none =>
        rw [dispatch_cons_none tex ww hh c cs cur hc hfind] at hmem
        simp at hmem
      | some ptr =>
        rw [dispatch_cons_some tex ww hh c cs cur ptr hc hfind] at hmem
        rcases List.mem_cons.mp hmem with hcall | hcall
        · subst hcall
          rfl
        · exact dispatch_proj tex ww hh cs (cur + c.elem_count) call hcall

lemma dispatch_append_fail {T : Type} (tex : List T) (ww hh : ℕ) :
    ∀ (pre : List DrawCommand) (c : DrawCommand) (post : List DrawCommand) (cur : ℕ),
      (dispatch tex ww hh pre cur).2 = true → 1 ≤ c.elem_count →
      find_res tex c.tex_id = none →
      dispatch tex ww hh (pre ++ c :: post) cur = ((dispatch tex ww hh pre cur).1, false)
  | [], c, post, cur, _, hcnt, hfind => by
    rw [List.nil_append, dispatch_nil,
      dispatch_cons_none tex ww hh c post cur (by omega) hfind]
  | p :: pre, c, post, cur, h, hcnt, hfind => by
    rw [List.cons_append]
    by_cases hp : p.elem_count < 1
    · rw [dispatch_cons_zero tex ww hh p pre cur hp] at h
      rw [dispatch_cons_zero tex ww hh p (pre ++ c :: post) cur hp,
        dispatch_cons_zero tex ww hh p pre cur hp]
      exact dispatch_append_fail tex ww hh pre c post cur h hcnt hfind
    · cases hpfind : find_res tex p.tex_id with
      | none =>
        rw [dispatch_cons_none tex ww hh p pre cur hp hpfind] at h
        simp at h
      | some ptr =>
        rw [dispatch_cons_some tex ww hh p pre cur ptr hp hpfind] at h
        rw [dispatch_cons_some tex ww hh p (pre ++ c :: post) cur ptr hp hpfind,
          dispatch_cons_some tex ww hh p pre cur ptr hp hpfind,
          dispatch_append_fail tex ww hh pre c post (cur + p.elem_count) h hcnt hfind]

lemma dispatch_insert_zero {T : Type} (tex : List T) (ww hh : ℕ) :
    ∀ (pre : List DrawCommand) (c : DrawCommand) (post : List DrawCommand) (cur : ℕ),
      c.elem_count = 0 →
      dispatch tex ww hh (pre ++ c :: post) cur = dispatch tex ww hh (pre ++ post) cur
  | [], c, post, cur, hz => by
    rw [List.nil_append, List.nil_append,
      dispatch_cons_zero tex ww hh c post cur (by omega)]
  | p :: pre, c, post, cur, hz => by
    rw [List.cons_append, List.cons_append]
    by_cases hp : p.elem_count < 1
    · rw [dispatch_cons_zero tex ww hh p (pre ++ c :: post) cur hp,
        dispatch_cons_zero tex ww hh p (pre ++ post) cur hp]
      exact dispatch_insert_zero tex ww hh pre c post cur hz
    · cases hpfind : find_res tex p.tex_id with
      | none =>
        rw [dispatch_cons_none tex ww hh p (pre ++ c :: post) cur hp hpfind,
          dispatch_cons_none tex ww hh p (pre ++ post) cur hp hpfind]
      | some ptr =>
        rw [dispatch_cons_some tex ww hh p (pre ++ c :: post) cur ptr hp hpfind,
          dispatch_cons_some tex ww hh p (pre ++ post) cur ptr hp hpfind,
          dispatch_insert_zero tex ww hh pre c post (cur + p.elem_count) hz]

/-- Claim C1: for every command list whose dispatch succeeds, the index
sub-ranges passed to the draw calls are pairwise disjoint, contiguous,
cover exactly `[0, E)` where `E` is the sum of the per-command element
counts, and occur in the same order as the commands: the cursor starts at 0
and advances by exactly `elem_count` after each drawn command. -/
theorem c1_index_ranges (T : Type) (tex : List T) (ww hh : ℕ)
    (cs : List DrawCommand) (hok : (dispatch tex ww hh cs 0).2 = true) :
    chain 0 (sumElems cs) (dispatch tex ww hh cs 0).1
    ∧ List.Pairwise (fun a b => a.idx_end ≤ b.idx_start) (dispatch tex ww hh cs 0).1
    ∧ (∀ k, (∃ call ∈ (dispatch tex ww hh cs 0).1,
          call.idx_start ≤ k ∧ k < call.idx_end) ↔ k < sumElems cs)
    ∧ (dispatch tex ww hh cs 0).1.map (fun call => call.idx_end - call.idx_start)
        = (cs.filter fun c => 1 ≤ c.elem_count).map (fun c => c.elem_count) := by
  have hch := dispatch_chain tex ww hh cs 0 hok
  rw [Nat.zero_add] at hch
  refine ⟨hch, chain_pairwise _ 0 _ hch, ?_, dispatch_lens tex ww hh cs 0 hok⟩
  intro k
  have hcov := chain_cover _ 0 _ hch k
  simpa using hcov

theorem c1_index_ranges_witness :
    (dispatch [42] 640 480
        [⟨3, 1, 0, 0, 8, 8⟩, ⟨0, 1, 0, 0, 8, 8⟩, ⟨6, 1, 0, 0, 8, 8⟩] 0).2 = true
    ∧ chain 0 9 (dispatch [42] 640 480
        [⟨3, 1, 0, 0, 8, 8⟩, ⟨0, 1, 0, 0, 8, 8⟩, ⟨6, 1, 0, 0, 8, 8⟩] 0).1
    ∧ (dispatch [42] 640 480
        [⟨3, 1, 0, 0, 8, 8⟩, ⟨0, 1, 0, 0, 8, 8⟩, ⟨6, 1, 0, 0, 8, 8⟩] 0).1.map
          (fun call => call.idx_end - call.idx_start) = [3, 6] := by
  have h := c1_index_ranges ℕ [42] 640 480
    [⟨3, 1, 0, 0, 8, 8⟩, ⟨0, 1, 0, 0, 8, 8⟩, ⟨6, 1, 0, 0, 8, 8⟩] rfl
  exact ⟨rfl, h.1, h.2.2.2.trans (by decide)⟩

/-- Claim C2: successful texture registrations return 1-based handles that
increase by exactly one: each `add_texture` returns `previous_count + 1`, and
the Nth call starting from an empty registry returns handle `N` (stated below
the `i32` wrapping bound of the handle cast). -/
theorem c2_register_handles (T : Type) (imgs : List T)
    (hbound : ((imgs.length : ℕ) : ℤ) < 2 ^ 31) :
    (∀ (tex : List T) (t : T), (tex.length : ℤ) + 1 < 2 ^ 31 →
        (addTexture tex t).1 = (tex.length : ℤ) + 1)
    ∧ (registerSeq ([] : List T) imgs).1
        = (List.range imgs.length).map (fun k : ℕ => (k : ℤ) + 1) := by
  refine ⟨fun tex t ht => addTexture_fst tex t ht, ?_⟩
  have h := (registerSeq_spec imgs [] (by simpa using hbound)).1
  simpa using h

theorem c2_register_handles_witness :
    (registerSeq ([] : List ℕ) [10, 20, 30]).1 = [1, 2, 3] := by
  have h := (c2_register_handles ℕ [10, 20, 30] (by norm_num)).2
  exact h.trans (by decide)

/-- Claim C3: `find_res` returns the `h`-th registered resource (in
registration order) iff `1 ≤ h ≤ count`, and `none` for every other handle,
including `0` and negative handles. -/
theorem c3_find_res_range (T : Type) (tex : List T) (id : ℤ) :
    ((∃ r, find_res tex id = some r) ↔ 1 ≤ id ∧ id ≤ (tex.length : ℤ))
    ∧ (1 ≤ id → id ≤ (tex.length : ℤ) →
        find_res tex id = tex.get? ((id - 1).toNat)) := by
  constructor
  · constructor
    · rintro ⟨r, hr⟩
      by_cases hcond : 0 < id ∧ id.toNat ≤ tex.length
      · omega
      · rw [find_res, dif_neg hcond] at hr
        exact absurd hr (by simp)
    · rintro ⟨h1, h2⟩
      have hsome : find_res tex id = some (tex.get ⟨(id - 1).toNat, by omega⟩) := by
        rw [find_res, dif_pos (⟨by omega, by omega⟩ : 0 < id ∧ id.toNat ≤ tex.length)]
      exact ⟨_, hsome⟩
  · intro h1 h2
    rw [find_res, dif_pos (⟨by omega, by omega⟩ : 0 < id ∧ id.toNat ≤ tex.length)]
    exact (List.get?_eq_get (show (id - 1).toNat < tex.length by omega)).symm

theorem c3_find_res_range_witness :
    find_res ([10, 20] : List ℕ) 2 = some 20
    ∧ find_res ([10, 20] : List ℕ) 0 = none
    ∧ find_res ([10, 20] : List ℕ) (-3) = none := by
  refine ⟨((c3_find_res_range ℕ [10, 20] 2).2 (by decide) (by decide)).trans (by decide),
    ?_, ?_⟩
  · cases h0 : find_res ([10, 20] : List ℕ) 0 with
    | none => rfl
    | some r =>
      have h := (c3_find_res_range ℕ [10, 20] 0).1.mp ⟨r, h0⟩
      omega
  · cases h3 : find_res ([10, 20] : List ℕ) (-3) with
    | none => rfl
    | some r =>
      have h := (c3_find_res_range ℕ [10, 20] (-3)).1.mp ⟨r, h3⟩
      omega

/-- Claim C4: a dispatched command with `elem_count ≥ 1` whose texture handle
does not resolve fails the frame: every draw call issued before it is kept,
but no draw call is issued for it or for any later command, and the command
is neither drawn with a substitute texture nor silently skipped. -/
theorem c4_unresolved_fails (T : Type) (tex : List T) (ww hh : ℕ)
    (pre : List DrawCommand) (c : DrawCommand) (post : List DrawCommand)
    (cur : ℕ) (hpre : (dispatch tex ww hh pre cur).2 = true)
    (hcnt : 1 ≤ c.elem_count) (hfind : find_res tex c.tex_id = none) :
    dispatch tex ww hh (pre ++ c :: post) cur
      = ((dispatch tex ww hh pre cur).1, false) :=
  dispatch_append_fail tex ww hh pre c post cur hpre hcnt hfind

theorem c4_unresolved_fails_witness :
    dispatch [9] 640 480
        [⟨3, 1, 0, 0, 8, 8⟩, ⟨6, 5, 0, 0, 8, 8⟩, ⟨2, 1, 0, 0, 8, 8⟩] 0
      = ((dispatch [9] 640 480 [⟨3, 1, 0, 0, 8, 8⟩] 0).1, false) :=
  c4_unresolved_fails ℕ [9] 640 480 [⟨3, 1, 0, 0, 8, 8⟩] ⟨6, 5, 0, 0, 8, 8⟩
    [⟨2, 1, 0, 0, 8, 8⟩] 0 rfl (by decide) (by decide)

/-- Claim C5: a command with `elem_count = 0` produces no draw call and does
not advance the index cursor: dispatch of any list with such a command
inserted equals dispatch of the list with it absent. -/
theorem c5_zero_count_skip (T : Type) (tex : List T) (ww hh : ℕ)
    (pre : List DrawCommand) (c : DrawCommand) (post : List DrawCommand)
    (cur : ℕ) (hz : c.elem_count = 0) :
    dispatch tex ww hh (pre ++ c :: post) cur
      = dispatch tex ww hh (pre ++ post) cur :=
  dispatch_insert_zero tex ww hh pre c post cur hz

theorem c5_zero_count_skip_witness :
    dispatch [7] 640 480
        [⟨2, 1, 0, 0, 8, 8⟩, ⟨0, 1, 0, 0, 8, 8⟩, ⟨3, 1, 0, 0, 8, 8⟩] 0
      = dispatch [7] 640 480 [⟨2, 1, 0, 0, 8, 8⟩, ⟨3, 1, 0, 0, 8, 8⟩] 0 :=
  c5_zero_count_skip ℕ [7] 640 480 [⟨2, 1, 0, 0, 8, 8⟩] ⟨0, 1, 0, 0, 8, 8⟩
    [⟨3, 1, 0, 0, 8, 8⟩] 0 rfl

/-- Claim C6: for a clip rect with `x < 0` the computed scissor has
`left = 0` and `width` computed from `w + x` (so `width = w + x` whenever
`w + x` is a representable non-negative integer); symmetrically for `y < 0`
the height is computed from `h + y`. -/
theorem c6_scissor_neg (x y w h : ℚ) (hh : ℕ) (hx : x < 0) :
    (scissorRect x y w h hh).left = 0
    ∧ (scissorRect x y w h hh).width = f32ToU32 (w + x)
    ∧ (∀ n : ℕ, n < 2 ^ 32 → w + x = (n : ℚ) →
        (scissorRect x y w h hh).width = n)
    ∧ (y < 0 → (scissorRect x y w h hh).height = f32ToU32 (h + y)
        ∧ ∀ n : ℕ, n < 2 ^ 32 → h + y = (n : ℚ) →
            (scissorRect x y w h hh).height = n) := by
  refine ⟨?_, ?_, ?_, ?_⟩
  · show f32ToU32 (if x < 0 then 0 else x) = 0
    rw [if_pos hx, f32ToU32_zero]
  · show f32ToU32 (if x < 0 then w + x else w) = _
    rw [if_pos hx]
  · intro n hn he
    show f32ToU32 (if x < 0 then w + x else w) = n
    rw [if_pos hx, he, f32ToU32_natCast n hn]
  · intro hy
    constructor
    · show f32ToU32 (if y < 0 then h + y else h) = _
      rw [if_pos hy]
    · intro n hn he
      show f32ToU32 (if y < 0 then h + y else h) = n
      rw [if_pos hy, he, f32ToU32_natCast n hn]

theorem c6_scissor_neg_witness :
    (scissorRect (-5) 0 20 10 100).left = 0
    ∧ (scissorRect (-5) 0 20 10 100).width = 15 := by
  have h := c6_scissor_neg (-5) 0 20 10 100 (by norm_num)
  exact ⟨h.1, h.2.2.1 15 (by norm_num) (by norm_num)⟩

/-- Claim C7: for a clip rectangle fully inside the target
(`0 ≤ x`, `0 ≤ y`, `x + w ≤ W`, `y + h ≤ H`), the clamps have no effect:
the scissor is exactly `left = x`, `bottom = H - y - h`, `width = w`,
`height = h`. -/
theorem c7_scissor_inside (x y w h W H : ℕ) (hxw : x + w ≤ W) (hyh : y + h ≤ H)
    (hW : W < 2 ^ 32) (hH : H < 2 ^ 32) :
    scissorRect (x : ℚ) (y : ℚ) (w : ℚ) (h : ℚ) H = ⟨x, H - y - h, w, h⟩ := by
  have hx : ¬ ((x : ℚ) < 0) := not_lt.mpr (Nat.cast_nonneg x)
  have hy : ¬ ((y : ℚ) < 0) := not_lt.mpr (Nat.cast_nonneg y)
  unfold scissorRect
  simp only [Rect.mk.injEq]
  refine ⟨?_, ?_, ?_, ?_⟩
  · rw [if_neg hx]
    exact f32ToU32_natCast x (by omega)
  · rw [if_neg hy]
    have hcast : ((H - y - h : ℕ) : ℚ) = (H : ℚ) - y - h := by
      rw [Nat.cast_sub (by omega : h ≤ H - y), Nat.cast_sub (by omega : y ≤ H)]
    rw [← hcast]
    exact f32ToU32_natCast _ (by omega)
  · rw [if_neg hx]
    exact f32ToU32_natCast w (by omega)
  · rw [if_neg hy]
    exact f32ToU32_natCast h (by omega)

theorem c7_scissor_inside_witness :
    scissorRect 10 20 30 40 100 = ⟨10, 40, 30, 40⟩ := by
  have h := c7_scissor_inside 10 20 30 40 100 100
    (by omega) (by omega) (by norm_num) (by norm_num)
  norm_num at h
  exact h

/-- Claim C8 counterexample: the constructed staging buffers do not hold
exactly `V` vertex records and `I` index records — at `V = 100`, `I = 300`
the source allocates `vec![Vertex::default(); 100 * size_of::<Vertex>()]`
(2000 records) and `vec![0u16; 300 * size_of::<u16>()]` (600 records). -/
theorem c8_staging_capacity_cex : ¬ (vbfLen 100 = 100 ∧ ebfLen 300 = 300) := by
  decide

/-- Claim C8 (amended): the constructed staging vertex buffer holds
`V * size_of::<Vertex>()` vertex records and the staging index buffer
`I * size_of::<u16>()` index records; the byte windows handed to the
converter (`vbf.capacity()` and `ebf.capacity()` bytes) hold exactly `V`
vertex records and exactly `I` index records. -/
theorem c8_staging_capacity (V I : ℕ) :
    vbfLen V = V * vertexSize
    ∧ ebfLen I = I * u16Size
    ∧ rvbufBytes V / vertexSize = V
    ∧ rebufBytes I / u16Size = I := by
  refine ⟨rfl, rfl, ?_, ?_⟩
  · show V * vertexSize / vertexSize = V
    exact Nat.mul_div_cancel V (by norm_num [vertexSize])
  · show I * u16Size / u16Size = I
    exact Nat.mul_div_cancel I (by norm_num [u16Size])

/-- Claim C9: every draw call issued in a frame of dimensions `(W, H)`
carries the same projection matrix, and that matrix is the fixed
orthographic form with diagonal `(2/W, -2/H, -1, 1)`, translation column
`(-1, 1, 0, 1)`, and all other entries zero. -/
theorem c9_projection (T : Type) (tex : List T) (ww hh : ℕ)
    (cs : List DrawCommand) (cur : ℕ) (call : DrawCall T)
    (hmem : call ∈ (dispatch tex ww hh cs cur).1) :
    call.proj = ortho ww hh ∧ ortho ww hh = orthoSpecForm ww hh :=
  ⟨dispatch_proj tex ww hh cs cur call hmem, ortho_eq_specForm ww hh⟩

theorem c9_projection_witness :
    (⟨0, 3, 5, scissorRect 0 0 8 8 480, ortho 640 480⟩ : DrawCall ℕ).proj
        = ortho 640 480
    ∧ ortho 640 480 = orthoSpecForm 640 480 :=
  c9_projection ℕ [5] 640 480 [⟨3, 1, 0, 0, 8, 8⟩] 0 _
    (by
      rw [show (dispatch [5] 640 480 [⟨3, 1, 0, 0, 8, 8⟩] 0).1
          = [⟨0, 3, 5, scissorRect 0 0 8 8 480, ortho 640 480⟩] from rfl]
      exact List.mem_singleton.mpr rfl)

/-- Claim C10: a command with `elem_count = 0` is skipped before its texture
handle is resolved: even when the handle is unregistered, dispatch neither
fails the frame nor issues a draw call for it. -/
theorem c10_zero_skip_unresolved (T : Type) (tex : List T) (ww hh : ℕ)
    (c : DrawCommand) (cs : List DrawCommand) (cur : ℕ)
    (hz : c.elem_count = 0) (hfind : find_res tex c.tex_id = none) :
    dispatch tex ww hh (c :: cs) cur = dispatch tex ww hh cs cur
    ∧ dispatch tex ww hh [c] cur = ([], true) := by
  refine ⟨dispatch_cons_zero tex ww hh c cs cur (by omega), ?_⟩
  rw [dispatch_cons_zero tex ww hh c [] cur (by omega), dispatch_nil]

theorem c10_zero_skip_unresolved_witness :
    dispatch [9] 640 480 [⟨0, 5, 0, 0, 8, 8⟩, ⟨3, 1, 0, 0, 8, 8⟩] 0
      = dispatch [9] 640 480 [⟨3, 1, 0, 0, 8, 8⟩] 0
    ∧ dispatch [9] 640 480 [⟨0, 5, 0, 0, 8, 8⟩] 0 = ([], true) :=
  c10_zero_skip_unresolved ℕ [9] 640 480 ⟨0, 5, 0, 0, 8, 8⟩
    [⟨3, 1, 0, 0, 8, 8⟩] 0 rfl (by decide)

end NuklearGlium
